import Mathlib

/-!
Shallow embedding of the Nine Men's Morris rules engine (`src/nmm.rs`).

The Rust `Game` struct is embedded as a Lean structure; `&mut self`
methods become functions `Game → ... → Game × Option String`, where the
second component is the error of the `Result` (`none` = `Ok(())`).
Returning the (possibly mutated) game together with the error is needed
to model Rust faithfully: the source can mutate `self.history` before
returning `Err`.  `u8` counters are embedded as `Nat`; every counter
mutation in the source is a guarded decrement from at most 9 or an
increment bounded by the piece count, so no `u8` wrap-around is
reachable and `Nat` arithmetic coincides with `u8` arithmetic on all
states exercised here.  The board `[Option<Piece>; 24]` is a
`List (Option Color)` of length 24, indexed with `getD` (every source
index is bounds-checked before use).  `Vec<Snapshot>` with `push`/`pop`
at the end is a `List Snapshot` used as a stack with `push`/`pop` at the
head.
-/

namespace NMM

inductive Color where
  | Black
  | White
deriving DecidableEq, Repr

def Color.opposite : Color → Color
  | .Black => .White
  | .White => .Black

abbrev Player := Color
abbrev Piece := Color
abbrev Point := Nat

inductive ActionKind where
  | Place (p : Point)
  | Move (f t : Point)
  | Remove (p : Point)
deriving DecidableEq, Repr

structure Action where
  player : Player
  action : ActionKind
deriving DecidableEq, Repr

structure Snapshot where
  board : List (Option Piece)
  to_move : Player
  unplaced : Nat × Nat
  removed : Nat × Nat
  must_remove : Option Player
deriving DecidableEq, Repr

structure Game where
  board : List (Option Piece)
  to_move : Player
  unplaced : Nat × Nat
  removed : Nat × Nat
  must_remove : Option Player
  history : List Snapshot
deriving DecidableEq, Repr

/-- Read a `[u8; 2]` array at index 0 or 1. -/
def getC (a : Nat × Nat) (i : Nat) : Nat :=
  if i = 0 then a.1 else a.2

/-- Write a `[u8; 2]` array at index 0 or 1. -/
def setC (a : Nat × Nat) (i : Nat) (v : Nat) : Nat × Nat :=
  if i = 0 then (v, a.2) else (a.1, v)

namespace Game

/-- `Game::INVALID`. -/
def INVALID : Point := 24

/-- `Game::MILLS`: the 16 mill triples, transcribed from the source. -/
def MILLS : List (List Point) :=
  [[0, 1, 2], [2, 3, 4], [4, 5, 6], [6, 7, 0],
   [8, 9, 10], [10, 11, 12], [12, 13, 14], [14, 15, 8],
   [16, 17, 18], [18, 19, 20], [20, 21, 22], [22, 23, 16],
   [1, 9, 17], [3, 11, 19], [5, 13, 21], [7, 15, 23]]

/-- `Game::NEIGHBORS`: fixed-width neighbour table, padded with `INVALID`,
transcribed entry by entry from the source. -/
def NEIGHBORS : List (List Point) :=
  [[1, 7, INVALID, INVALID],
   [0, 2, 9, INVALID],
   [1, 3, INVALID, INVALID],
   [2, 4, 11, INVALID],
   [3, 5, INVALID, INVALID],
   [4, 6, 13, INVALID],
   [5, 7, INVALID, INVALID],
   [0, 6, 15, INVALID],
   [INVALID, 9, 15, 16],
   [1, 8, 10, 17],
   [INVALID, 9, 11, 18],
   [3, 10, 12, 19],
   [INVALID, 11, 13, 20],
   [5, 12, 14, 21],
   [INVALID, 13, 15, 22],
   [7, 8, 14, 23],
   [INVALID, 17, 23, INVALID],
   [9, 16, 18, INVALID],
   [INVALID, 17, 19, INVALID],
   [11, 18, 20, INVALID],
   [INVALID, 19, 21, INVALID],
   [13, 20, 22, INVALID],
   [INVALID, 21, 23, INVALID],
   [15, 16, 22, INVALID]]

/-- `Game::color_idx`. -/
def color_idx : Color → Nat
  | .White => 0
  | .Black => 1

/-- `Game::snapshot`. -/
def snapshot (g : Game) : Snapshot :=
  { board := g.board
    to_move := g.to_move
    unplaced := g.unplaced
    removed := g.removed
    must_remove := g.must_remove }

/-- `Game::forms_mill`: some mill through `point` is fully `color`. -/
def forms_mill (g : Game) (point : Point) (color : Color) : Bool :=
  MILLS.any fun mill =>
    mill.contains point
    && g.board.getD (mill.getD 0 INVALID) none == some color
    && g.board.getD (mill.getD 1 INVALID) none == some color
    && g.board.getD (mill.getD 2 INVALID) none == some color

/-- `Game::point_in_mill`. -/
def point_in_mill (g : Game) (point : Point) : Bool :=
  match g.board.getD point none with
  | some color => g.forms_mill point color
  | none => false

/-- `Game::all_pieces_in_mills`. -/
def all_pieces_in_mills (g : Game) (color : Color) : Bool :=
  (List.range 24).all fun i =>
    !(g.board.getD i none == some color) || g.point_in_mill i

/-- `Game::count_pieces`. -/
def count_pieces (g : Game) (color : Color) : Nat :=
  g.board.countP (· == some color)

/-- `Game::are_adjacent`. -/
def are_adjacent (f t : Point) : Bool :=
  (NEIGHBORS.getD f []).any (· == t)

/-- `Game::player_can_move`: does `player` have a legal `Place` or `Move`? -/
def player_can_move (g : Game) (player : Player) : Bool :=
  let idx := color_idx player
  if 0 < getC g.unplaced idx then
    g.board.any (· == none)
  else
    let pieces := g.count_pieces player
    if pieces = 3 then
      (g.board.any (· == some player)) && (g.board.any (· == none))
    else
      (List.range 24).any fun f =>
        g.board.getD f none == some player
        && (NEIGHBORS.getD f []).any fun n =>
             decide (n < 24) && g.board.getD n none == none

/-- `<Game as NmmGame>::new`. -/
def new : Game :=
  { board := List.replicate 24 none
    to_move := .White
    unplaced := (9, 9)
    removed := (0, 0)
    must_remove := none
    history := [] }

/-- `<Game as NmmGame>::action`.  Returns the post-call state together
with `none` for `Ok(())` or `some msg` for `Err(msg)`; the state is
returned even on error because the source pushes to `self.history`
before some failure paths. -/
def action (g : Game) (a : Action) : Game × Option String :=
  match g.must_remove with
  | some waiting =>
    if a.player ≠ waiting then
      (g, some "This player must remove")
    else
      match a.action with
      | .Remove p =>
        if 24 ≤ p then (g, some "Point out of range")
        else
          let g1 := { g with history := g.snapshot :: g.history }
          let opponent := a.player.opposite
          if g1.board.getD p none ≠ some opponent then
            (g1, some "Can only remove opponent piece")
          else if !g1.all_pieces_in_mills opponent && g1.point_in_mill p then
            ({ g1 with history := g1.history.tail },
             some "Cannot remove a piece in a mill")
          else
            let opp_idx := color_idx opponent
            ({ g1 with
                board := g1.board.set p none
                removed := setC g1.removed opp_idx (getC g1.removed opp_idx + 1)
                must_remove := none
                to_move := opponent }, none)
      | _ => (g, some "Must remove a piece")
  | none =>
    if a.player ≠ g.to_move then
      (g, some "Not this player's turn")
    else
      let idx := color_idx a.player
      match a.action with
      | .Place p =>
        if 24 ≤ p then (g, some "Point out of range")
        else if getC g.unplaced idx = 0 then
          (g, some "No pieces left to place")
        else if (g.board.getD p none).isSome then
          (g, some "Point already occupied")
        else
          let g1 := { g with history := g.snapshot :: g.history }
          let g2 := { g1 with
                        board := g1.board.set p (some a.player)
                        unplaced := setC g1.unplaced idx (getC g1.unplaced idx - 1) }
          if g2.forms_mill p a.player then
            let opponent := a.player.opposite
            let all_opponent_in_mills := g2.all_pieces_in_mills opponent
            let can_remove := (List.range 24).any fun i =>
              g2.board.getD i none == some opponent
              && (all_opponent_in_mills || !g2.point_in_mill i)
            if can_remove then
              ({ g2 with must_remove := some a.player }, none)
            else
              ({ g2 with to_move := a.player.opposite }, none)
          else
            ({ g2 with to_move := a.player.opposite }, none)
      | .Move f t =>
        if 24 ≤ f then (g, some "Point out of range")
        else if 24 ≤ t then (g, some "Point out of range")
        else if 0 < getC g.unplaced idx then
          (g, some "Must place all pieces before moving")
        else if g.board.getD f none ≠ some a.player then
          (g, some "No piece of this player at source")
        else if (g.board.getD t none).isSome then
          (g, some "Destination not empty")
        else
          let flying := g.count_pieces a.player = 3
          if ¬flying ∧ ¬(are_adjacent f t = true) then
            (g, some "Points not adjacent")
          else
            let g1 := { g with history := g.snapshot :: g.history }
            let g2 := { g1 with
                          board := (g1.board.set f none).set t (some a.player) }
            if g2.forms_mill t a.player then
              let opponent := a.player.opposite
              let all_opponent_in_mills := g2.all_pieces_in_mills opponent
              let can_remove := (List.range 24).any fun i =>
                g2.board.getD i none == some opponent
                && (all_opponent_in_mills || !g2.point_in_mill i)
              if can_remove then
                ({ g2 with must_remove := some a.player }, none)
              else
                ({ g2 with to_move := a.player.opposite }, none)
            else
              ({ g2 with to_move := a.player.opposite }, none)
      | .Remove _ => (g, some "Remove not allowed now")

/-- `<Game as NmmGame>::undo`. -/
def undo (g : Game) : Game × Option String :=
  match g.history with
  | [] => (g, some "No action to undo")
  | snap :: rest =>
    ({ board := snap.board
       to_move := snap.to_move
       unplaced := snap.unplaced
       removed := snap.removed
       must_remove := snap.must_remove
       history := rest }, none)

/-- `<Game as NmmGame>::points`. -/
def points (g : Game) : List (Option Piece) := g.board

/-- `<Game as NmmGame>::winner`. -/
def winner (g : Game) : Option Player :=
  if 7 ≤ getC g.removed (color_idx .Black) then some .White
  else if 7 ≤ getC g.removed (color_idx .White) then some .Black
  else if !g.player_can_move g.to_move then some g.to_move.opposite
  else none

end Game

/-- `str::parse::<usize>` on a point token: optional leading `+`, then
one or more ASCII digits (overflow is not modelled; `Nat` is unbounded). -/
def parse_usize (s : String) : Option Nat :=
  let t := match s.toList with
    | '+' :: rest => rest
    | cs => cs
  if t = [] then none
  else if t.all Char.isDigit then
    some (t.foldl (fun n c => n * 10 + (c.toNat - 48)) 0)
  else none

/-- `<Action as FromStr>::from_str` after `split_whitespace().collect()`:
the per-token logic of the parser, on the token list. -/
def from_str_parts (parts : List String) : Except String Action :=
  if parts.length < 3 then .error "Invalid action format"
  else
    match (if parts.getD 0 "" = "W" then some Color.White
           else if parts.getD 0 "" = "B" then some Color.Black
           else none) with
    | none => .error "Invalid player"
    | some player =>
      if parts.getD 1 "" = "P" then
        match parse_usize (parts.getD 2 "") with
        | none => .error "Invalid point"
        | some point => .ok { player := player, action := .Place point }
      else if parts.getD 1 "" = "M" then
        if parts.length ≠ 4 then .error "Invalid move format"
        else
          match parse_usize (parts.getD 2 "") with
          | none => .error "Invalid from point"
          | some f =>
            match parse_usize (parts.getD 3 "") with
            | none => .error "Invalid to point"
            | some t => .ok { player := player, action := .Move f t }
      else if parts.getD 1 "" = "R" then
        match parse_usize (parts.getD 2 "") with
        | none => .error "Invalid point"
        | some point => .ok { player := player, action := .Remove point }
      else .error "Invalid action type"

/-- Helper for `split_whitespace`: `acc` holds the current token's
characters in reverse. -/
def split_ws_aux : List Char → List Char → List String
  | [], acc => if acc = [] then [] else [String.mk acc.reverse]
  | c :: cs, acc =>
    if c.isWhitespace then
      (if acc = [] then [] else [String.mk acc.reverse]) ++ split_ws_aux cs []
    else
      split_ws_aux cs (c :: acc)

/-- `str::split_whitespace` collected to a list: maximal runs of
non-whitespace characters, in order. -/
def split_whitespace (s : String) : List String :=
  split_ws_aux s.toList []

/-- `<Action as FromStr>::from_str`: tokenize on whitespace and parse. -/
def from_str (s : String) : Except String Action :=
  from_str_parts (split_whitespace s)

/-- Apply a list of actions in order; `some` iff every call returned `Ok`. -/
def applyAll (g : Game) : List Action → Option Game
  | [] => some g
  | a :: rest =>
    match g.action a with
    | (g1, none) => applyAll g1 rest
    | (_, some _) => none

/-- Call `undo` `n` times; `some` iff every call returned `Ok`. -/
def undoN : Nat → Game → Option Game
  | 0, g => some g
  | n + 1, g =>
    match g.undo with
    | (g1, none) => undoN n g1
    | (_, some _) => none

/-- The state after a list of actions from `Game.new` (initial state if
some action fails; used only with successful sequences). -/
def stateAfter (acts : List Action) : Game :=
  (applyAll Game.new acts).getD Game.new

/-! ## Concrete action sequences used by individual claims -/

/-- White places 0,1,2 (a mill) while Black places 8,9: after the fifth
action White owes a removal. -/
def mill_seq : List Action :=
  [⟨.White, .Place 0⟩, ⟨.Black, .Place 8⟩, ⟨.White, .Place 1⟩,
   ⟨.Black, .Place 9⟩, ⟨.White, .Place 2⟩]

/-- `mill_seq` followed by White removing Black's piece at 8. -/
def mill_remove_seq : List Action :=
  mill_seq ++ [⟨.White, .Remove 8⟩]

/-! ## C3: the static adjacency data -/

/-- C3: the `NEIGHBORS` table is NOT the canonical board graph: it lists
16 as a neighbour of 8 while omitting 8 from the neighbours of 16 (and
likewise for the pairs 10/18, 12/20, 14/22), so `are_adjacent` is
asymmetric and the middle-square corner points 8, 10, 12, 14 have 3
valid neighbours instead of the 2 the board diagram gives them. -/
theorem are_adjacent_asymmetric_at_8_16 :
    Game.are_adjacent 8 16 = true ∧ Game.are_adjacent 16 8 = false
  ∧ Game.are_adjacent 10 18 = true ∧ Game.are_adjacent 18 10 = false
  ∧ Game.are_adjacent 12 20 = true ∧ Game.are_adjacent 20 12 = false
  ∧ Game.are_adjacent 14 22 = true ∧ Game.are_adjacent 22 14 = false
  ∧ ((Game.NEIGHBORS.getD 8 []).filter (fun n => decide (n < 24))).length = 3
  ∧ ((Game.NEIGHBORS.getD 16 []).filter (fun n => decide (n < 24))).length = 2 := by
  decide

/-! ## C2: rejected actions and the undo history -/

/-- C2: a rejected `Remove` CAN leave an extra snapshot on the history
stack: in the reachable state after `mill_seq` (White owes a removal,
history holds 5 snapshots), White's `Remove 3` targets an empty point
and is rejected with "Can only remove opponent piece", yet the history
afterwards holds 6 snapshots — the snapshot pushed before the
opponent-piece check is never popped on that failure path. -/
theorem rejected_remove_leaves_phantom_snapshot :
    (applyAll Game.new mill_seq).isSome = true
  ∧ (stateAfter mill_seq).must_remove = some Color.White
  ∧ (stateAfter mill_seq).history.length = 5
  ∧ ((stateAfter mill_seq).action ⟨Color.White, .Remove 3⟩).2
      = some "Can only remove opponent piece"
  ∧ ((stateAfter mill_seq).action ⟨Color.White, .Remove 3⟩).1.history.length = 6 := by
  decide

/-! ## C9: parse failures -/

theorem except_toOption_error (e : String) :
    (Except.error e : Except String Action).toOption = none := rfl

theorem except_toOption_ok (a : Action) :
    (Except.ok a : Except String Action).toOption = some a := rfl

/-- All the error conditions of the parser, stated on the token list. -/
theorem from_str_parts_error_conditions (parts : List String) :
    (parts.length < 3 → (from_str_parts parts).toOption = none)
  ∧ (parts.getD 0 "" ≠ "W" → parts.getD 0 "" ≠ "B" →
      (from_str_parts parts).toOption = none)
  ∧ (parts.getD 1 "" ≠ "P" → parts.getD 1 "" ≠ "M" → parts.getD 1 "" ≠ "R" →
      (from_str_parts parts).toOption = none)
  ∧ (parts.getD 1 "" = "M" → parts.length ≠ 4 →
      (from_str_parts parts).toOption = none)
  ∧ ((parts.getD 1 "" = "P" ∨ parts.getD 1 "" = "R") →
      parse_usize (parts.getD 2 "") = none → (from_str_parts parts).toOption = none)
  ∧ (parts.getD 1 "" = "M" →
      (parse_usize (parts.getD 2 "") = none ∨ parse_usize (parts.getD 3 "") = none) →
      (from_str_parts parts).toOption = none) := by
  unfold from_str_parts
  refine ⟨?_, ?_, ?_, ?_, ?_, ?_⟩
  · intro h; simp [h, except_toOption_error]
  · intro h1 h2; split <;> simp_all [except_toOption_error]
  · intro h1 h2 h3; split <;> [simp [except_toOption_error]; skip]
    split <;> simp_all [except_toOption_error]
  · intro h1 h2; split <;> [simp [except_toOption_error]; skip]
    split <;> simp_all [except_toOption_error]
  · rintro (h1 | h1) h2 <;>
      (split <;> [simp [except_toOption_error]; skip]
       split <;> simp_all [except_toOption_error])
  · rintro h1 (h2 | h2) <;>
      (split <;> [simp [except_toOption_error]; skip]
       split <;> [simp [except_toOption_error]; skip]) <;>
      simp_all [except_toOption_error] <;>
      rcases h3 : parse_usize (parts.getD 2 "") with _ | v <;>
      simp_all [except_toOption_error] <;> split <;> simp [except_toOption_error]

/-- C9 (counterexample to the claim as stated): "W P 0 0" has the wrong
argument count for a `Place` (four tokens instead of three), yet the
parser accepts it and constructs `W Place 0`, ignoring the extra token —
the token-count check exists only in the `Move` branch. -/
theorem from_str_accepts_extra_place_argument :
    (from_str "W P 0 0").toOption = some ⟨Color.White, ActionKind.Place 0⟩ := by
  decide

/-- C9 (amended): parsing a textual action string yields an error and
constructs no `Action` whenever the player token is not "W"/"B", the
action token is not "P"/"M"/"R", there are fewer than three
whitespace-separated tokens, a Move does not have exactly four tokens,
or a required point argument is not an integer; extra trailing tokens
after a `Place` or `Remove` point are ignored rather than rejected. -/
theorem from_str_error_conditions (s : String) :
    ((split_whitespace s).length < 3 → (from_str s).toOption = none)
  ∧ ((split_whitespace s).getD 0 "" ≠ "W" → (split_whitespace s).getD 0 "" ≠ "B" →
      (from_str s).toOption = none)
  ∧ ((split_whitespace s).getD 1 "" ≠ "P" → (split_whitespace s).getD 1 "" ≠ "M" →
      (split_whitespace s).getD 1 "" ≠ "R" → (from_str s).toOption = none)
  ∧ ((split_whitespace s).getD 1 "" = "M" → (split_whitespace s).length ≠ 4 →
      (from_str s).toOption = none)
  ∧ (((split_whitespace s).getD 1 "" = "P" ∨ (split_whitespace s).getD 1 "" = "R") →
      parse_usize ((split_whitespace s).getD 2 "") = none →
      (from_str s).toOption = none)
  ∧ ((split_whitespace s).getD 1 "" = "M" →
      (parse_usize ((split_whitespace s).getD 2 "") = none ∨
       parse_usize ((split_whitespace s).getD 3 "") = none) →
      (from_str s).toOption = none) :=
  from_str_parts_error_conditions (split_whitespace s)

/-- Witness for C9's amended theorem: "X P 0" has an unknown player
token and is rejected. -/
theorem from_str_error_conditions_witness :
    ((split_whitespace "X P 0").getD 0 "" ≠ "W"
      ∧ (split_whitespace "X P 0").getD 0 "" ≠ "B")
  ∧ (from_str "X P 0").toOption = none :=
  ⟨by decide, (from_str_error_conditions "X P 0").2.1 (by decide) (by decide)⟩

/-! ## Field-projection lemmas: the board-only predicates ignore the
other fields of the record. -/

theorem forms_mill_fields (g : Game) (tm : Player) (up rm : Nat × Nat)
    (mr : Option Player) (hist : List Snapshot) (p : Point) (c : Color) :
    (Game.mk g.board tm up rm mr hist).forms_mill p c = g.forms_mill p c := rfl

theorem point_in_mill_fields (g : Game) (tm : Player) (up rm : Nat × Nat)
    (mr : Option Player) (hist : List Snapshot) (p : Point) :
    (Game.mk g.board tm up rm mr hist).point_in_mill p = g.point_in_mill p := rfl

theorem all_pieces_in_mills_fields (g : Game) (tm : Player) (up rm : Nat × Nat)
    (mr : Option Player) (hist : List Snapshot) (c : Color) :
    (Game.mk g.board tm up rm mr hist).all_pieces_in_mills c
      = g.all_pieces_in_mills c := rfl

theorem count_pieces_fields (g : Game) (tm : Player) (up rm : Nat × Nat)
    (mr : Option Player) (hist : List Snapshot) (c : Color) :
    (Game.mk g.board tm up rm mr hist).count_pieces c = g.count_pieces c := rfl

/-! ## C5: mill protection on removal -/

/-- C5: while `pl` owes a removal and `q` holds an opponent piece, a
`Remove q` is rejected exactly when `q` lies in a mill and the opponent
still has a piece outside every mill; it succeeds whenever all opponent
pieces are in mills, and a target outside every mill always succeeds. -/
theorem remove_mill_protection (g : Game) (pl : Player) (q : Point)
    (hmr : g.must_remove = some pl) (hq : q < 24)
    (hb : g.board.getD q none = some pl.opposite) :
    (g.point_in_mill q = true → g.all_pieces_in_mills pl.opposite = false →
        (g.action ⟨pl, .Remove q⟩).2 = some "Cannot remove a piece in a mill")
  ∧ (g.all_pieces_in_mills pl.opposite = true → (g.action ⟨pl, .Remove q⟩).2 = none)
  ∧ (g.point_in_mill q = false → (g.action ⟨pl, .Remove q⟩).2 = none) := by
  have h24 : ¬ 24 ≤ q := Nat.not_le.mpr hq
  simp at hb
  refine ⟨fun h1 h2 => ?_, fun h1 => ?_, fun h1 => ?_⟩
  · simp [Game.action, hmr, h24, hb, h1, h2, all_pieces_in_mills_fields,
      point_in_mill_fields]
  · simp [Game.action, hmr, h24, hb, h1, all_pieces_in_mills_fields,
      point_in_mill_fields]
  · simp [Game.action, hmr, h24, hb, h1, all_pieces_in_mills_fields,
      point_in_mill_fields]

/-- Witness for C5: after `mill_seq`, White owes a removal; Black's
piece at 8 is outside every mill and its removal succeeds. -/
theorem remove_mill_protection_witness :
    ((stateAfter mill_seq).must_remove = some Color.White
      ∧ (stateAfter mill_seq).board.getD 8 none = some Color.White.opposite
      ∧ (stateAfter mill_seq).point_in_mill 8 = false)
  ∧ ((stateAfter mill_seq).action ⟨Color.White, .Remove 8⟩).2 = none :=
  ⟨⟨by decide, by decide, by decide⟩,
   (remove_mill_protection (stateAfter mill_seq) .White 8
      (by decide) (by decide) (by decide)).2.2 (by decide)⟩

/-! ## C6: flying -/

/-- C6: on `pl`'s movement-phase turn with all structural checks met
(own piece at `f`, empty in-range `t`), a `Move f t` succeeds regardless
of adjacency when `pl` has exactly 3 pieces on the board, and succeeds
exactly when `t` is adjacent to `f` when `pl` has 4 or more. -/
theorem move_flying_rule (g : Game) (pl : Player) (f t : Point)
    (hmr : g.must_remove = none) (htm : g.to_move = pl)
    (hup : getC g.unplaced (Game.color_idx pl) = 0)
    (hf : f < 24) (ht : t < 24)
    (hbf : g.board.getD f none = some pl)
    (hbt : g.board.getD t none = none) :
    (g.count_pieces pl = 3 → (g.action ⟨pl, .Move f t⟩).2 = none)
  ∧ (4 ≤ g.count_pieces pl →
      ((g.action ⟨pl, .Move f t⟩).2 = none ↔ Game.are_adjacent f t = true)) := by
  have h24f : ¬ 24 ≤ f := Nat.not_le.mpr hf
  have h24t : ¬ 24 ≤ t := Nat.not_le.mpr ht
  simp at hbf hbt
  constructor
  · intro h3
    simp [Game.action, hmr, htm, hup, h24f, h24t, hbf, hbt, h3]
    split <;> (try split) <;> rfl
  · intro h4
    have hfly : ¬ (g.count_pieces pl = 3) := by omega
    rcases hadj : Game.are_adjacent f t with _ | _
    · simp [Game.action, hmr, htm, hup, h24f, h24t, hbf, hbt, hfly, hadj]
    · simp [Game.action, hmr, htm, hup, h24f, h24t, hbf, hbt, hfly, hadj]
      split <;> (try split) <;> rfl

/-- A movement-phase position where White has exactly three pieces
(0, 2 and 4) and may fly. -/
def flying_game : Game :=
  { board := [some .White, none, some .White, none, some .White] ++
      List.replicate 19 none
    to_move := .White
    unplaced := (0, 0)
    removed := (0, 0)
    must_remove := none
    history := [] }

/-- Witness for C6: with exactly 3 pieces, White's move from 0 to the
non-adjacent empty point 9 succeeds. -/
theorem move_flying_rule_witness :
    (flying_game.count_pieces .White = 3 ∧ Game.are_adjacent 0 9 = false)
  ∧ (flying_game.action ⟨Color.White, .Move 0 9⟩).2 = none :=
  ⟨⟨by decide, by decide⟩,
   (move_flying_rule flying_game .White 0 9 (by decide) (by decide) (by decide)
      (by decide) (by decide) (by decide) (by decide)).1 (by decide)⟩

/-! ## C8: rejection is a no-op on the game state proper -/

/-- Every call to `action` either succeeds or leaves the five state
fields (everything but the history) unchanged. -/
theorem action_state_cases (g : Game) (a : Action) :
    (g.action a).2 = none
  ∨ ((g.action a).1.board = g.board ∧ (g.action a).1.to_move = g.to_move
      ∧ (g.action a).1.unplaced = g.unplaced ∧ (g.action a).1.removed = g.removed
      ∧ (g.action a).1.must_remove = g.must_remove) := by
  obtain ⟨pl, k⟩ := a
  rcases hmr : g.must_remove with _ | w <;> cases k <;>
    simp only [Game.action, hmr] <;> (repeat' split) <;> simp [hmr]

/-- C8: for every action call that returns an error, the board, the
player to move, both unplaced counters, both removed counters and the
pending-removal flag are identical before and after the call. -/
theorem action_rejected_is_noop (g : Game) (a : Action)
    (h : (g.action a).2 ≠ none) :
    (g.action a).1.board = g.board ∧ (g.action a).1.to_move = g.to_move
  ∧ (g.action a).1.unplaced = g.unplaced ∧ (g.action a).1.removed = g.removed
  ∧ (g.action a).1.must_remove = g.must_remove :=
  (action_state_cases g a).resolve_left h

/-- Witness for C8: Black trying to place first is rejected and changes
no state field. -/
theorem action_rejected_is_noop_witness :
    (Game.new.action ⟨Color.Black, .Place 0⟩).2 ≠ none
  ∧ (Game.new.action ⟨Color.Black, .Place 0⟩).1.board = Game.new.board :=
  ⟨by decide, (action_rejected_is_noop Game.new ⟨Color.Black, .Place 0⟩ (by decide)).1⟩

/-! ## C4: characterization of `winner` -/

theorem any_none_iff (l : List (Option Piece)) :
    l.any (· == none) = true ↔ ∃ q, q < l.length ∧ l.getD q none = none := by
  rw [List.any_eq_true]
  constructor
  · rintro ⟨x, hx, hxn⟩
    obtain ⟨i, hi, rfl⟩ := List.mem_iff_getElem.mp hx
    refine ⟨i, hi, ?_⟩
    rw [List.getD_eq_getElem?_getD, List.getElem?_eq_getElem hi]
    simpa using hxn
  · rintro ⟨q, hq, hqe⟩
    refine ⟨l[q], List.getElem_mem hq, ?_⟩
    rw [List.getD_eq_getElem?_getD, List.getElem?_eq_getElem hq] at hqe
    simpa using hqe

/-- The claim's description of "has a legal action": an empty point
during placement; any empty point while flying with exactly 3 pieces;
otherwise an own piece with an adjacent empty destination. -/
def legal_action_exists (g : Game) (p : Player) : Prop :=
  if 0 < getC g.unplaced (Game.color_idx p) then
    ∃ q, q < 24 ∧ g.board.getD q none = none
  else if g.count_pieces p = 3 then
    ∃ q, q < 24 ∧ g.board.getD q none = none
  else
    ∃ s, s < 24 ∧ g.board.getD s none = some p ∧
      ∃ t, t < 24 ∧ Game.are_adjacent s t = true ∧ g.board.getD t none = none

/-- `player_can_move` computes exactly `legal_action_exists`. -/
theorem player_can_move_iff (g : Game) (p : Player) (hlen : g.board.length = 24) :
    g.player_can_move p = true ↔ legal_action_exists g p := by
  by_cases h1 : 0 < getC g.unplaced (Game.color_idx p)
  · unfold Game.player_can_move legal_action_exists
    simp only [h1, if_true]
    rw [any_none_iff, hlen]
  · by_cases h2 : g.count_pieces p = 3
    · have hpos0 : 0 < g.count_pieces p := by omega
      have hpos : 0 < g.board.countP (· == some p) := hpos0
      have hown : g.board.any (· == some p) = true := by
        rw [List.any_eq_true]
        obtain ⟨x, hx, hpx⟩ := List.countP_pos_iff.mp hpos
        exact ⟨x, hx, hpx⟩
      unfold Game.player_can_move legal_action_exists
      simp only [h1, if_false, h2, if_true, hown, Bool.true_and]
      rw [any_none_iff, hlen]
    · unfold Game.player_can_move legal_action_exists
      simp only [h1, if_false, h2, if_true]
      rw [List.any_eq_true]
      constructor
      · rintro ⟨s, hs, hbig⟩
        rw [Bool.and_eq_true] at hbig
        obtain ⟨hsome, hinner⟩ := hbig
        rw [List.any_eq_true] at hinner
        obtain ⟨n, hn, hcond⟩ := hinner
        rw [Bool.and_eq_true] at hcond
        refine ⟨s, List.mem_range.mp hs, by simpa using hsome, n,
          by simpa using hcond.1, ?_, by simpa using hcond.2⟩
        unfold Game.are_adjacent
        rw [List.any_eq_true]
        exact ⟨n, hn, by simp⟩
      · rintro ⟨s, hs, hsome, t, ht, hadj, hemp⟩
        refine ⟨s, List.mem_range.mpr hs, ?_⟩
        rw [Bool.and_eq_true]
        refine ⟨by simpa using hsome, ?_⟩
        rw [List.any_eq_true]
        unfold Game.are_adjacent at hadj
        rw [List.any_eq_true] at hadj
        obtain ⟨x, hx, hxt⟩ := hadj
        rw [beq_iff_eq] at hxt
        subst hxt
        refine ⟨x, hx, by simp [ht]; simpa using hemp⟩

/-- C4: `winner` returns White whenever 7 or more Black pieces have been
removed (checked first), Black whenever 7 or more White pieces have been
removed, and otherwise decides by whether the player to move has a legal
action, the winner being that player's opponent when they have none. -/
theorem winner_characterization (g : Game) (hlen : g.board.length = 24) :
    (7 ≤ getC g.removed (Game.color_idx .Black) → g.winner = some .White)
  ∧ (getC g.removed (Game.color_idx .Black) < 7 →
      7 ≤ getC g.removed (Game.color_idx .White) → g.winner = some .Black)
  ∧ (getC g.removed (Game.color_idx .Black) < 7 →
      getC g.removed (Game.color_idx .White) < 7 →
      ((¬ legal_action_exists g g.to_move → g.winner = some g.to_move.opposite)
        ∧ (legal_action_exists g g.to_move → g.winner = none))) := by
  refine ⟨fun hB => ?_, fun hBlt hW => ?_, fun hBlt hWlt => ⟨fun hno => ?_, fun hyes => ?_⟩⟩
  · simp [Game.winner, hB]
  · simp [Game.winner, Nat.not_le.mpr hBlt, hW]
  · have hfalse : g.player_can_move g.to_move = false := by
      rcases hc : g.player_can_move g.to_move with _ | _
      · rfl
      · exact absurd ((player_can_move_iff g g.to_move hlen).mp hc) hno
    simp [Game.winner, Nat.not_le.mpr hBlt, Nat.not_le.mpr hWlt, hfalse]
  · have htrue : g.player_can_move g.to_move = true :=
      (player_can_move_iff g g.to_move hlen).mpr hyes
    simp [Game.winner, Nat.not_le.mpr hBlt, Nat.not_le.mpr hWlt, htrue]

/-- Witness for C4: in the fresh game neither counter has reached 7 and
White can place, so there is no winner. -/
theorem winner_characterization_witness :
    (Game.new.board.length = 24
      ∧ getC Game.new.removed (Game.color_idx .Black) < 7
      ∧ getC Game.new.removed (Game.color_idx .White) < 7)
  ∧ Game.new.winner = none :=
  ⟨⟨by decide, by decide, by decide⟩,
   ((winner_characterization Game.new (by decide)).2.2 (by decide) (by decide)).2
     (by unfold legal_action_exists
         rw [if_pos (by decide)]
         exact ⟨0, by decide, by decide⟩)⟩

/-! ## C7: undo is the inverse of a successful action -/

/-- Every call to `action` either fails or produces a state from which
one `undo` succeeds and restores exactly the pre-call state. -/
theorem action_undo_cases (g : Game) (a : Action) :
    (g.action a).2 ≠ none ∨ (g.action a).1.undo = (g, none) := by
  obtain ⟨pl, k⟩ := a
  obtain ⟨b, tm, up, rm, mr, hist⟩ := g
  rcases mr with _ | w <;> cases k <;>
    simp only [Game.action] <;> (repeat' split) <;>
    simp [Game.undo, Game.snapshot]

/-- Unfold `undoN` from the far end: `n + 1` undos are `n` undos
followed by one more. -/
theorem undoN_succ (n : Nat) (g : Game) :
    undoN (n + 1) g =
      match undoN n g with
      | some g1 =>
        (match g1.undo with
         | (g2, none) => some g2
         | (_, some _) => none)
      | none => none := by
  induction n generalizing g with
  | zero =>
    show (match g.undo with
          | (g1, none) => undoN 0 g1
          | (_, some _) => none) = _
    rcases hu : g.undo with ⟨g2, e⟩
    cases e <;> simp [undoN, hu]
  | succ m ih =>
    show (match g.undo with
          | (g1, none) => undoN (m + 1) g1
          | (_, some _) => none) = _
    rcases hu : g.undo with ⟨g2, e⟩
    cases e
    · have h3 : undoN (m + 1) g = undoN m g2 := by
        show (match g.undo with
              | (g1, none) => undoN m g1
              | (_, some _) => none) = _
        rw [hu]
      change undoN (m + 1) g2 = _
      rw [h3]
      exact ih g2
    · have h3 : undoN (m + 1) g = none := by
        show (match g.undo with
              | (g1, none) => undoN m g1
              | (_, some _) => none) = _
        rw [hu]
      rw [h3]

theorem applyAll_undoN (acts : List Action) :
    ∀ g0 g : Game, applyAll g0 acts = some g → undoN acts.length g = some g0 := by
  induction acts with
  | nil =>
    intro g0 g h
    simp [applyAll] at h
    simp [undoN, h]
  | cons a rest ih =>
    intro g0 g h
    rw [applyAll] at h
    rcases ha : g0.action a with ⟨g1, e⟩
    rw [ha] at h
    cases e with
    | some err => simp at h
    | none =>
      have hrest : applyAll g1 rest = some g := h
      have hstep0 : (g0.action a).2 ≠ none ∨ (g0.action a).1.undo = (g0, none) :=
        action_undo_cases g0 a
      rw [ha] at hstep0
      have hstep : g1.undo = (g0, none) := by
        rcases hstep0 with hbad | hgood
        · simp at hbad
        · exact hgood
      simp only [List.length_cons]
      rw [undoN_succ, ih g1 g hrest]
      show (match g1.undo with
            | (g2, none) => some g2
            | (_, some _) => none) = some g0
      rw [hstep]

/-- C7: after any sequence of N successful actions from `new`, N calls
to `undo` all succeed (`undoN` returns `some`) and the final state —
board, player to move, counters, pending-removal flag and history —
equals `new` exactly. -/
theorem undo_inverse (acts : List Action) (g : Game)
    (h : applyAll Game.new acts = some g) :
    undoN acts.length g = some Game.new :=
  applyAll_undoN acts Game.new g h

/-- Witness for C7: one placement, one undo, back to the fresh game. -/
theorem undo_inverse_witness :
    applyAll Game.new [⟨Color.White, .Place 0⟩]
        = some (stateAfter [⟨Color.White, .Place 0⟩])
  ∧ undoN 1 (stateAfter [⟨Color.White, .Place 0⟩]) = some Game.new :=
  ⟨by decide, undo_inverse [⟨Color.White, .Place 0⟩] _ (by decide)⟩

/-! ## C10: a pending removal can always be discharged -/

/-- The code's `can_remove` test: some opponent piece is legally
removable (outside every mill, or any piece when all are in mills). -/
def has_removable (g : Game) (c : Color) : Bool :=
  (List.range 24).any fun i =>
    g.board.getD i none == some c
    && (g.all_pieces_in_mills c || !g.point_in_mill i)

/-- Induction principle over successful action sequences. -/
theorem applyAll_induction (P : Game → Prop)
    (hstep : ∀ (g : Game) (a : Action), (g.action a).2 = none → P (g.action a).1) :
    ∀ (acts : List Action) (g0 g : Game), P g0 → applyAll g0 acts = some g → P g := by
  intro acts
  induction acts with
  | nil =>
    intro g0 g h0 h
    simp [applyAll] at h
    exact h ▸ h0
  | cons a rest ih =>
    intro g0 g h0 h
    rw [applyAll] at h
    rcases ha : g0.action a with ⟨g1, e⟩
    rw [ha] at h
    cases e with
    | some err => simp at h
    | none =>
      have h1 : P g1 := by
        have hP := hstep g0 a (by rw [ha])
        rwa [ha] at hP
      exact ih g1 g h1 h

/-- A successful action either clears the pending-removal flag or sets
it for the acting player having checked that a removable piece exists. -/
theorem action_post_must_remove_cases (g : Game) (a : Action) :
    (g.action a).2 ≠ none
  ∨ (g.action a).1.must_remove = none
  ∨ ((g.action a).1.must_remove = some a.player
      ∧ has_removable (g.action a).1 a.player.opposite = true) := by
  obtain ⟨pl, k⟩ := a
  obtain ⟨b, tm, up, rm, mr, hist⟩ := g
  rcases mr with _ | w <;> cases k <;>
    simp only [Game.action] <;> (repeat' split) <;>
    first
      | (left; simp; done)
      | (right; left; rfl)
      | (right; right; exact ⟨rfl, by assumption⟩)

theorem has_removable_spec (g : Game) (c : Color) (h : has_removable g c = true) :
    ∃ q, q < 24 ∧ g.board.getD q none = some c
      ∧ (g.all_pieces_in_mills c = true ∨ g.point_in_mill q = false) := by
  unfold has_removable at h
  rw [List.any_eq_true] at h
  obtain ⟨i, hi, hcond⟩ := h
  rw [Bool.and_eq_true] at hcond
  refine ⟨i, List.mem_range.mp hi, by simpa using hcond.1, ?_⟩
  rcases hcond with ⟨_, hor⟩
  rw [Bool.or_eq_true] at hor
  rcases hor with h1 | h2
  · exact Or.inl h1
  · right
    revert h2
    cases g.point_in_mill i <;> simp

/-- A `Remove` by the obligated player of an in-range opponent piece
that is unprotected (or when everything is protected) succeeds. -/
theorem remove_succeeds (g : Game) (pl : Player) (q : Nat)
    (hmr : g.must_remove = some pl) (hq : q < 24)
    (hb : g.board.getD q none = some pl.opposite)
    (hok : g.all_pieces_in_mills pl.opposite = true ∨ g.point_in_mill q = false) :
    (g.action ⟨pl, .Remove q⟩).2 = none := by
  have h24 : ¬ 24 ≤ q := Nat.not_le.mpr hq
  simp at hb
  rcases hok with h1 | h1 <;>
    simp [Game.action, hmr, h24, hb, h1, all_pieces_in_mills_fields,
      point_in_mill_fields]

/-- C10: in every state reachable from `new` by successful actions,
a pending removal owed by `p` implies the opponent has a legally
removable piece, and some `Remove` by `p` succeeds. -/
theorem pending_removal_dischargeable (acts : List Action) (g : Game) (p : Player)
    (hreach : applyAll Game.new acts = some g)
    (hmr : g.must_remove = some p) :
    has_removable g p.opposite = true
  ∧ ∃ q, (g.action ⟨p, .Remove q⟩).2 = none := by
  have hP : ∀ p', g.must_remove = some p' → has_removable g p'.opposite = true := by
    refine applyAll_induction
      (fun gg => ∀ p', gg.must_remove = some p' → has_removable gg p'.opposite = true)
      ?_ acts Game.new g ?_ hreach
    · intro gg a hsucc p' hmr'
      rcases action_post_must_remove_cases gg a with hbad | hnone | ⟨hsome, hrem⟩
      · exact absurd hsucc hbad
      · rw [hnone] at hmr'; cases hmr'
      · rw [hsome] at hmr'
        injection hmr' with he
        rw [← he]
        exact hrem
    · intro p' h
      simp [Game.new] at h
  have h1 := hP p hmr
  obtain ⟨q, hq, hb, hok⟩ := has_removable_spec g p.opposite h1
  exact ⟨h1, q, remove_succeeds g p q hmr hq hb hok⟩

/-- Witness for C10: after `mill_seq` White owes a removal and Black has
a removable piece. -/
theorem pending_removal_dischargeable_witness :
    (applyAll Game.new mill_seq = some (stateAfter mill_seq)
      ∧ (stateAfter mill_seq).must_remove = some Color.White)
  ∧ has_removable (stateAfter mill_seq) Color.White.opposite = true :=
  ⟨⟨by decide, by decide⟩,
   (pending_removal_dischargeable mill_seq (stateAfter mill_seq) Color.White
      (by decide) (by decide)).1⟩

/-! ## C1: piece conservation -/

/-- Replacing element `i` changes `countP` by swapping the old
element's contribution for the new one's, in additive form. -/
theorem countP_set_add {α : Type} (l : List α) (i : Nat) (a d : α) (f : α → Bool) :
    ∀ _hi : i < l.length,
    (l.set i a).countP f + (if f (l.getD i d) then 1 else 0)
      = l.countP f + (if f a then 1 else 0) := by
  induction l generalizing i with
  | nil => intro hi; simp at hi
  | cons x xs ih =>
    intro hi
    cases i with
    | zero =>
      cases hfx : f x <;> cases hfa : f a <;>
        simp [List.countP_cons, hfx, hfa]
    | succ j =>
      have hj : j < xs.length := by simpa using hi
      have hrec := ih j hj
      simp only [List.getD_eq_getElem?_getD] at hrec
      cases hfx : f x <;>
        simp [List.countP_cons, hfx, List.getD_cons_succ] <;> omega

/-- On success, a `Place p` by `pl` was into an empty in-range point
with a piece in hand, sets `board[p]`, decrements `pl`'s unplaced
counter and leaves `removed` alone. -/
theorem place_success_shape (g : Game) (pl : Player) (p : Nat) :
    (g.action ⟨pl, .Place p⟩).2 ≠ none
  ∨ (¬(getC g.unplaced (Game.color_idx pl) = 0)
      ∧ ¬((g.board.getD p none).isSome = true)
      ∧ ¬(24 ≤ p)
      ∧ (g.action ⟨pl, .Place p⟩).1.board = g.board.set p (some pl)
      ∧ (g.action ⟨pl, .Place p⟩).1.unplaced
          = setC g.unplaced (Game.color_idx pl) (getC g.unplaced (Game.color_idx pl) - 1)
      ∧ (g.action ⟨pl, .Place p⟩).1.removed = g.removed) := by
  obtain ⟨b, tm, up, rm, mr, hist⟩ := g
  rcases mr with _ | w <;>
    simp only [Game.action] <;> (repeat' split) <;>
    first
      | (left; simp; done)
      | (right; exact ⟨by assumption, by assumption, by assumption, rfl, rfl, rfl⟩)

/-- On success, a `Move f t` by `pl` was from an own piece to an empty
in-range point and moves the piece, leaving the counters alone. -/
theorem move_success_shape (g : Game) (pl : Player) (f t : Nat) :
    (g.action ⟨pl, .Move f t⟩).2 ≠ none
  ∨ (¬(g.board.getD f none ≠ some pl)
      ∧ ¬((g.board.getD t none).isSome = true)
      ∧ ¬(24 ≤ f) ∧ ¬(24 ≤ t)
      ∧ (g.action ⟨pl, .Move f t⟩).1.board = (g.board.set f none).set t (some pl)
      ∧ (g.action ⟨pl, .Move f t⟩).1.unplaced = g.unplaced
      ∧ (g.action ⟨pl, .Move f t⟩).1.removed = g.removed) := by
  obtain ⟨b, tm, up, rm, mr, hist⟩ := g
  rcases mr with _ | w <;>
    simp only [Game.action] <;> (repeat' split) <;>
    first
      | (left; simp; done)
      | (right; exact ⟨by assumption, by assumption, by assumption, by assumption,
          rfl, rfl, rfl⟩)

/-- On success, a `Remove q` by `pl` vacated an in-range point holding
an opponent piece and bumped the opponent's removed counter. -/
theorem remove_success_shape (g : Game) (pl : Player) (q : Nat) :
    (g.action ⟨pl, .Remove q⟩).2 ≠ none
  ∨ (¬(g.board.getD q none ≠ some pl.opposite)
      ∧ ¬(24 ≤ q)
      ∧ (g.action ⟨pl, .Remove q⟩).1.board = g.board.set q none
      ∧ (g.action ⟨pl, .Remove q⟩).1.unplaced = g.unplaced
      ∧ (g.action ⟨pl, .Remove q⟩).1.removed
          = setC g.removed (Game.color_idx pl.opposite)
              (getC g.removed (Game.color_idx pl.opposite) + 1)) := by
  obtain ⟨b, tm, up, rm, mr, hist⟩ := g
  rcases mr with _ | w <;>
    simp only [Game.action] <;> (repeat' split) <;>
    first
      | (left; simp; done)
      | (right; exact ⟨by assumption, by assumption, rfl, rfl, rfl⟩)

/-- The conserved quantity for colour `c`: unplaced pieces of `c`, plus
pieces of `c` on the board, plus removed pieces of `c` (the `removed`
counter is indexed by the colour of the removed piece). -/
def piece_sum (g : Game) (c : Color) : Nat :=
  getC g.unplaced (Game.color_idx c) + g.count_pieces c
    + getC g.removed (Game.color_idx c)

theorem count_set_some (b : List (Option Color)) (q : Nat) (hq : q < b.length)
    (pl c : Color) (hempty : b.getD q none = none) :
    (b.set q (some pl)).countP (· == some c)
      = b.countP (· == some c) + (if pl = c then 1 else 0) := by
  have h := countP_set_add b q (some pl) none (· == some c) hq
  rw [hempty] at h
  rcases hc : pl == c with _ | _
  · have : pl ≠ c := by simpa using hc
    simp_all
  · have : pl = c := by simpa using hc
    simp_all

theorem count_set_none_add (b : List (Option Color)) (q : Nat) (hq : q < b.length)
    (o c : Color) (hocc : b.getD q none = some o) :
    (b.set q none).countP (· == some c) + (if o = c then 1 else 0)
      = b.countP (· == some c) := by
  have h := countP_set_add b q none none (· == some c) hq
  rw [hocc] at h
  rcases hc : o == c with _ | _
  · have : o ≠ c := by simpa using hc
    simp_all
  · have : o = c := by simpa using hc
    simp_all

theorem getD_set_none (b : List (Option Color)) (f t : Nat)
    (ht : b.getD t none = none) : (b.set f none).getD t none = none := by
  by_cases hft : f = t
  · subst hft
    by_cases hf : f < b.length
    · rw [List.getD_eq_getElem?_getD, List.getElem?_set_self]
      · simp
      · exact hf
    · rw [List.set_eq_of_length_le (by omega)]
      exact ht
  · rw [List.getD_eq_getElem?_getD, List.getElem?_set_ne hft]
    rw [List.getD_eq_getElem?_getD] at ht
    exact ht

/-- One successful action preserves the board length and the per-colour
piece sums. -/
theorem action_preserves_conservation (g : Game) (a : Action)
    (hsucc : (g.action a).2 = none)
    (hin : g.board.length = 24 ∧ ∀ c, piece_sum g c = 9) :
    (g.action a).1.board.length = 24 ∧ ∀ c, piece_sum (g.action a).1 c = 9 := by
  obtain ⟨hlen, hinv⟩ := hin
  obtain ⟨pl, k⟩ := a
  cases k with
  | Place p =>
    rcases place_success_shape g pl p with hbad | ⟨hup, hemp, h24, hb', hu', hr'⟩
    · exact absurd hsucc hbad
    · have hp : p < g.board.length := by rw [hlen]; exact Nat.lt_of_not_le h24
      have hempty : g.board.getD p none = none := by
        rcases hx : g.board.getD p none with _ | v
        · rfl
        · rw [hx] at hemp; simp at hemp
      refine ⟨by rw [hb', List.length_set]; exact hlen, fun c => ?_⟩
      have hWs := hinv Color.White
      have hBs := hinv Color.Black
      unfold piece_sum Game.count_pieces at hWs hBs ⊢
      rw [hb', hu', hr', count_set_some g.board p hp pl c hempty]
      cases pl <;> cases c <;>
        simp [getC, setC, Game.color_idx] at hup hWs hBs ⊢ <;> omega
  | Move f t =>
    rcases move_success_shape g pl f t with hbad | ⟨hbf, hbt, h24f, h24t, hb', hu', hr'⟩
    · exact absurd hsucc hbad
    · have hf : f < g.board.length := by rw [hlen]; exact Nat.lt_of_not_le h24f
      have hsrc : g.board.getD f none = some pl := not_ne_iff.mp hbf
      have hdst : g.board.getD t none = none := by
        rcases hx : g.board.getD t none with _ | v
        · rfl
        · rw [hx] at hbt; simp at hbt
      have ht' : t < (g.board.set f none).length := by
        rw [List.length_set, hlen]; exact Nat.lt_of_not_le h24t
      have hdst2 : (g.board.set f none).getD t none = none := getD_set_none _ _ _ hdst
      refine ⟨by rw [hb', List.length_set, List.length_set]; exact hlen, fun c => ?_⟩
      have hmid := count_set_none_add g.board f hf pl c hsrc
      have hWs := hinv Color.White
      have hBs := hinv Color.Black
      unfold piece_sum Game.count_pieces at hWs hBs ⊢
      rw [hb', hu', hr', count_set_some (g.board.set f none) t ht' pl c hdst2]
      cases pl <;> cases c <;>
        simp [getC, setC, Game.color_idx] at hmid hWs hBs ⊢ <;> omega
  | Remove q =>
    rcases remove_success_shape g pl q with hbad | ⟨hbq, h24, hb', hu', hr'⟩
    · exact absurd hsucc hbad
    · have hq : q < g.board.length := by rw [hlen]; exact Nat.lt_of_not_le h24
      have hocc : g.board.getD q none = some pl.opposite := not_ne_iff.mp hbq
      refine ⟨by rw [hb', List.length_set]; exact hlen, fun c => ?_⟩
      have hmid := count_set_none_add g.board q hq pl.opposite c hocc
      have hWs := hinv Color.White
      have hBs := hinv Color.Black
      unfold piece_sum Game.count_pieces at hWs hBs ⊢
      rw [hb', hu', hr']
      cases pl <;> cases c <;>
        simp [getC, setC, Game.color_idx, Color.opposite] at hmid hWs hBs ⊢ <;> omega

/-- Induction principle over successful action sequences, carrying an
invariant through each step. -/
theorem applyAll_induction_inv (P : Game → Prop)
    (hstep : ∀ (g : Game) (a : Action), (g.action a).2 = none → P g → P (g.action a).1) :
    ∀ (acts : List Action) (g0 g : Game), P g0 → applyAll g0 acts = some g → P g := by
  intro acts
  induction acts with
  | nil =>
    intro g0 g h0 h
    simp [applyAll] at h
    exact h ▸ h0
  | cons a rest ih =>
    intro g0 g h0 h
    rw [applyAll] at h
    rcases ha : g0.action a with ⟨g1, e⟩
    rw [ha] at h
    cases e with
    | some err => simp at h
    | none =>
      have h1 : P g1 := by
        have hP := hstep g0 a (by rw [ha]) h0
        rwa [ha] at hP
      exact ih g1 g h1 h

/-- C1 (counterexample to the claim as stated): after the reachable
sequence `mill_remove_seq` (White forms mill 0-1-2 and removes Black's
piece at 8), White's unplaced count (6) plus White's pieces on the
board (3) plus `removed[opposite(White)]` (= removed Black pieces, 1)
is 10, not 9: the `removed` counter of the struct is indexed by the
colour of the removed piece, not by its remover. -/
theorem conservation_claim_counterexample :
    (applyAll Game.new mill_remove_seq).isSome = true
  ∧ getC (stateAfter mill_remove_seq).unplaced (Game.color_idx .White)
      + (stateAfter mill_remove_seq).count_pieces .White
      + getC (stateAfter mill_remove_seq).removed
          (Game.color_idx (Color.opposite .White)) = 10 := by
  decide

/-- C1 (amended): for every state reachable from `new` by successful
actions and each colour `c`, `unplaced[c] + on_board(c) + removed[c]`
equals 9 — the removed counter is indexed by `c` itself, since
`removed[c]` counts the removed pieces OF colour `c`. -/
theorem conservation_amended (acts : List Action) (g : Game)
    (h : applyAll Game.new acts = some g) (c : Color) :
    getC g.unplaced (Game.color_idx c) + g.count_pieces c
      + getC g.removed (Game.color_idx c) = 9 := by
  have hP := applyAll_induction_inv
    (fun gg => gg.board.length = 24 ∧ ∀ c', piece_sum gg c' = 9)
    (fun gg a hs hh => action_preserves_conservation gg a hs hh)
    acts Game.new g ⟨by decide, fun c' => by rcases c' <;> decide⟩ h
  exact hP.2 c

/-- Witness for C1's amended theorem: the conserved sum for White after
`mill_remove_seq` is 9. -/
theorem conservation_amended_witness :
    applyAll Game.new mill_remove_seq = some (stateAfter mill_remove_seq)
  ∧ getC (stateAfter mill_remove_seq).unplaced (Game.color_idx .White)
      + (stateAfter mill_remove_seq).count_pieces .White
      + getC (stateAfter mill_remove_seq).removed (Game.color_idx .White) = 9 :=
  ⟨by decide, conservation_amended mill_remove_seq _ (by decide) .White⟩

end NMM
